import Mathlib

/-!
Verification of the mediastackarr deployment tool against its
natural-language specification.

The Go sources are shallowly embedded:
* the configuration loader's environment-value expansion
  (internal/config, `expandVariables`, `getEnvDefault`) over `List Char`
  with environment maps as association lists;
* the Docker management-API client (internal/docker, `Client.ListContainers`,
  `Client.FindContainer`, the prune calls) over an abstract host state;
* the compose facade's argument construction (internal/docker, `Compose`);
* the filesystem provisioner (internal/stack) over an explicit file-system
  state with an event trace;
* the deploy workflow (`runDeploy`) over oracles for the external runtime.

Machine strings are modelled as `List Char` where index arithmetic matters
(all inputs of interest are ASCII, so byte indices and character indices
coincide) and as `String` elsewhere.  Go's unbounded `for` loop in
`expandVariables` is modelled with explicit fuel: `none` means the loop has
not exited within the given number of iterations.
-/

namespace Mediastack

/-! ## Go `strings` helpers over `List Char`

`goIndex s sub` is `strings.Index(s, sub)`: the first index at which `sub`
occurs as a contiguous substring of `s`, `none` when there is no occurrence
(Go returns -1).  Like Go, an empty pattern is found at index 0. -/

/-- Model of `strings.Index` over character lists. -/
def goIndex (s sub : List Char) : Option Nat :=
  if sub.isPrefixOf s then some 0
  else
    match s with
    | [] => none
    | _ :: t => (goIndex t sub).map (· + 1)

/-- Model of `strings.Contains` over character lists. -/
def goContainsL (s sub : List Char) : Bool :=
  (goIndex s sub).isSome

/-- Model of `strings.Contains` over strings (used by `Client.FindContainer`). -/
def goContains (s sub : String) : Bool :=
  goContainsL s.data sub.data

theorem goIndex_of_isPrefixOf {s sub : List Char} (h : sub.isPrefixOf s) :
    goIndex s sub = some 0 := by
  unfold goIndex
  simp [h]

theorem goIndex_cons_of_ne {a p : Char} {t ps : List Char} (h : p ≠ a) :
    goIndex (a :: t) (p :: ps) = (goIndex t (p :: ps)).map (· + 1) := by
  have hp : (p :: ps).isPrefixOf (a :: t) = false := by
    simp [List.isPrefixOf, h]
  conv_lhs => unfold goIndex
  simp [hp]

/-- A pattern starting with a character absent from `s` does not occur in `s`. -/
theorem goIndex_eq_none_of_not_mem {c : Char} {cs s : List Char} (h : c ∉ s) :
    goIndex s (c :: cs) = none := by
  induction s with
  | nil =>
    unfold goIndex
    simp [List.isPrefixOf]
  | cons a t ih =>
    have hca : c ≠ a := fun hc => h (hc ▸ List.mem_cons_self a t)
    rw [goIndex_cons_of_ne hca, ih (fun hm => h (List.mem_cons_of_mem a hm))]
    rfl

/-- First occurrence of a two-character pattern placed after a prefix free of
its first character. -/
theorem goIndex_two_append {a b : Char} (pre rest : List Char) (h : a ∉ pre) :
    goIndex (pre ++ a :: b :: rest) [a, b] = some pre.length := by
  induction pre with
  | nil =>
    apply goIndex_of_isPrefixOf
    simp [List.isPrefixOf]
  | cons x xs ih =>
    have hax : a ≠ x := fun hc => h (hc ▸ List.mem_cons_self x xs)
    have hx : x :: xs ++ a :: b :: rest = x :: (xs ++ a :: b :: rest) := rfl
    rw [hx, goIndex_cons_of_ne hax, ih (fun hm => h (List.mem_cons_of_mem x hm))]
    rfl

/-- First occurrence of a single-character pattern placed after a prefix free
of that character. -/
theorem goIndex_one_append {c : Char} (pre rest : List Char) (h : c ∉ pre) :
    goIndex (pre ++ c :: rest) [c] = some pre.length := by
  induction pre with
  | nil =>
    apply goIndex_of_isPrefixOf
    simp [List.isPrefixOf]
  | cons x xs ih =>
    have hcx : c ≠ x := fun hc => h (hc ▸ List.mem_cons_self x xs)
    have hx : x :: xs ++ c :: rest = x :: (xs ++ c :: rest) := rfl
    rw [hx, goIndex_cons_of_ne hcx, ih (fun hm => h (List.mem_cons_of_mem x hm))]
    rfl

theorem goIndex_some_isPrefixOf {s sub : List Char} {i : Nat}
    (h : goIndex s sub = some i) : sub.isPrefixOf (s.drop i) := by
  induction s generalizing i with
  | nil =>
    unfold goIndex at h
    by_cases hp : sub.isPrefixOf ([] : List Char)
    · simp [hp] at h
      subst h
      simpa using hp
    · simp [hp] at h
  | cons a t ih =>
    unfold goIndex at h
    by_cases hp : sub.isPrefixOf (a :: t)
    · simp [hp] at h
      subst h
      simpa using hp
    · simp [hp] at h
      obtain ⟨j, hj, hji⟩ := h
      subst hji
      simpa using ih hj

theorem goIndex_some_le_length {s sub : List Char} {i : Nat}
    (h : goIndex s sub = some i) : i ≤ s.length := by
  induction s generalizing i with
  | nil =>
    unfold goIndex at h
    by_cases hp : sub.isPrefixOf ([] : List Char)
    · simp [hp] at h
      omega
    · simp [hp] at h
  | cons a t ih =>
    unfold goIndex at h
    by_cases hp : sub.isPrefixOf (a :: t)
    · simp [hp] at h
      omega
    · simp [hp] at h
      obtain ⟨j, hj, hji⟩ := h
      have := ih hj
      simp
      omega

/-- A single-character pattern does not occur before its reported index. -/
theorem goIndex_one_not_mem_take {s : List Char} {c : Char} {i : Nat}
    (h : goIndex s [c] = some i) : c ∉ s.take i := by
  induction s generalizing i with
  | nil => simp
  | cons a t ih =>
    unfold goIndex at h
    by_cases hp : [c].isPrefixOf (a :: t)
    · simp [hp] at h
      subst h
      simp
    · simp [hp] at h
      obtain ⟨j, hj, hji⟩ := h
      subst hji
      have hca : c ≠ a := by
        intro hc
        subst hc
        simp [List.isPrefixOf] at hp
      simp [List.take_succ_cons]
      exact ⟨fun hc => hca hc, ih hj⟩

/-! ## Environment-file value expansion (internal/config, `env.go`)

The already-parsed key map built by `ParseEnvFile` (Go `map[string]string`)
is modelled as an association list with at most one binding per key being
relevant; `List.lookup` is the map read.  The process environment
(`os.LookupEnv`) is an arbitrary partial function. -/

/-- Association-list model of the Go `map[string]string` of parsed keys. -/
abbrev EnvMap := List (List Char × List Char)

/-- Model of the process environment consulted by `os.LookupEnv`. -/
abbrev ProcEnv := List Char → Option (List Char)

/-- Resolution of one `${...}` body, mirroring the body of the loop in
`expandVariables`: a `:-` splits name and default (map hit with non-empty
value wins, otherwise the default literal); a plain name is looked up in the
map first (any value, even empty), then in the process environment, and
otherwise resolves to the empty string. -/
def resolveVar (env : EnvMap) (procEnv : ProcEnv) (varName : List Char) :
    List Char :=
  match goIndex varName [':', '-'] with
  | some idx =>
    let defaultVal := varName.drop (idx + 2)
    let name := varName.take idx
    match List.lookup name env with
    | some v => if v.isEmpty then defaultVal else v
    | none => defaultVal
  | none =>
    match List.lookup varName env with
    | some v => v
    | none =>
      match procEnv varName with
      | some v => v
      | none => []

/-- One iteration of the `for` loop of `expandVariables`: `none` means the
loop exits (no `${`, or no closing `}` after it); `some r` is the rewritten
string the loop continues with. -/
def expandStep (env : EnvMap) (procEnv : ProcEnv) (result : List Char) :
    Option (List Char) :=
  match goIndex result ['$', '{'] with
  | none => none
  | some start =>
    match goIndex (result.drop start) ['}'] with
    | none => none
    | some e0 =>
      let e := e0 + start
      let varName := (result.drop (start + 2)).take (e - (start + 2))
      let varValue := resolveVar env procEnv varName
      some (result.take start ++ varValue ++ result.drop (e + 1))

/-- Fuelled iteration of the expansion loop.  The Go loop is unbounded; a
`none` result means the loop has not exited within `fuel` iterations, so
divergence of the Go code is `∀ fuel, expandLoop ... fuel s = none`. -/
def expandLoop (env : EnvMap) (procEnv : ProcEnv) :
    Nat → List Char → Option (List Char)
  | fuel, result =>
    match expandStep env procEnv result with
    | none => some result
    | some r =>
      match fuel with
      | 0 => none
      | f + 1 => expandLoop env procEnv f r

/-- Model of `expandVariables(s, env)`, with explicit fuel for the unbounded
loop (the process environment is an extra parameter because the Go code
reads it through `os.LookupEnv`). -/
def expandVariables (fuel : Nat) (env : EnvMap) (procEnv : ProcEnv)
    (s : List Char) : Option (List Char) :=
  expandLoop env procEnv fuel s

/-- Model of `getEnvDefault` from the configuration loader: the map value if
present and non-empty, otherwise the default. -/
def getEnvDefault (env : EnvMap) (key defaultVal : List Char) : List Char :=
  match List.lookup key env with
  | some v => if v.isEmpty then defaultVal else v
  | none => defaultVal

/-- Project-name resolution performed by `config.Load`:
`cfg.ProjectName = getEnvDefault(env, "COMPOSE_PROJECT_NAME", "mediastack")`. -/
def loadProjectName (env : EnvMap) : List Char :=
  getEnvDefault env "COMPOSE_PROJECT_NAME".data "mediastack".data

/-- A parsed map in which `A` carries the literal value `${A}` (which
`ParseEnvFile` produces for the line `A=${A}` when the process environment
already holds `A=${A}`). -/
def selfRefEnv : EnvMap := [("A".data, "${A}".data)]

/-- An empty process environment. -/
def emptyProcEnv : ProcEnv := fun _ => none

/-- Shape of a value carrying any number of `${...}` occurrences (used
only in theorem statements): each chunk is the literal text before an
occurrence plus the occurrence's body, followed by a trailing literal. -/
def chunksJoin : List (List Char × List Char) → List Char → List Char
  | [], tail => tail
  | (t, vn) :: rest, tail => t ++ '$' :: '{' :: (vn ++ '}' :: chunksJoin rest tail)

/-- The same shape with every occurrence replaced by its resolution (used
only in theorem statements). -/
def chunksResolved (env : EnvMap) (procEnv : ProcEnv) :
    List (List Char × List Char) → List Char → List Char
  | [], tail => tail
  | (t, vn) :: rest, tail =>
    t ++ resolveVar env procEnv vn ++ chunksResolved env procEnv rest tail

/-! ## Docker management-API client (internal/docker, `client.go`)

A Docker host is a list of containers (plus volumes and networks for the
prune calls).  Container labels are a map modelled as an association list
read through `List.lookup`. -/

/-- The compose project scope label key used by `ListContainers`. -/
def composeProjectKey : String := "com.docker.compose.project"

/-- One public/private port pair as reported by the engine. -/
structure PortBinding where
  publicPort : Nat
  privatePort : Nat
  portType : String
deriving DecidableEq

/-- A container as known to the Docker engine (the fields the client
reads; `inspectHealth` is the health status `ContainerInspect` would
report, `none` when the container has no health state). -/
structure DockerContainer where
  id : String
  names : List String
  image : String
  state : String
  status : String
  created : Int
  labels : List (String × String)
  inspectHealth : Option String
  ports : List PortBinding
deriving DecidableEq

/-- The `ContainerInfo` record built by `Client.ListContainers`. -/
structure ContainerInfo where
  ID : String
  Name : String
  Image : String
  State : String
  Status : String
  Health : String
  Ports : List String
  Created : Int
deriving DecidableEq

/-- Filter arguments built by `ListContainers`: the compose project label
is added only when the client's project name is non-empty. -/
def projectFilterArgs (projectName : String) : List (String × String) :=
  if projectName == "" then []
  else [(composeProjectKey, projectName)]

/-- Engine semantics of a label filter: every `key=value` pair must be
present in the container's label map. -/
def matchesLabelFilters (labels flt : List (String × String)) : Bool :=
  flt.all (fun kv => labels.lookup kv.1 == some kv.2)

/-- Engine semantics of `ContainerList`: running containers only unless
`all`, intersected with the label filters. -/
def containerListQuery (all : Bool) (flt : List (String × String))
    (cs : List DockerContainer) : List DockerContainer :=
  cs.filter (fun c => (all || c.state == "running")
    && matchesLabelFilters c.labels flt)

/-- The containers `Client.ListContainers` enumerates, before conversion
to `ContainerInfo`. -/
def listTargets (projectName : String) (all : Bool)
    (cs : List DockerContainer) : List DockerContainer :=
  containerListQuery all (projectFilterArgs projectName) cs

/-- Model of `strings.TrimPrefix(name, "/")`. -/
def trimSlash (n : String) : String :=
  if n.startsWith "/" then n.drop 1 else n

/-- Port rendering `"pub->priv/type"` done by `ListContainers`. -/
def formatPort (p : PortBinding) : String :=
  Nat.repr p.publicPort ++ "->" ++ Nat.repr p.privatePort ++ "/" ++ p.portType

/-- Conversion of one engine container to the client's `ContainerInfo`:
the id is truncated to 12 characters, the first name loses its leading
slash, health is queried (via inspect) only when the observed state is
`running`, and only ports with a positive public port are rendered. -/
def toContainerInfo (c : DockerContainer) : ContainerInfo :=
  { ID := c.id.take 12
    Name := trimSlash (c.names.headD "")
    Image := c.image
    State := c.state
    Status := c.status
    Health := if c.state == "running" then
        (match c.inspectHealth with
          | some h => h
          | none => "")
      else ""
    Ports := (c.ports.filter (fun p => decide (0 < p.publicPort))).map formatPort
    Created := c.created }

/-- Model of `Client.ListContainers(ctx, all)` on a given host state. -/
def ListContainers (projectName : String) (all : Bool)
    (cs : List DockerContainer) : List ContainerInfo :=
  (listTargets projectName all cs).map toContainerInfo

/-- Model of `Client.FindContainer`: first enumerated container (stopped
ones included) whose name contains the service name as a substring;
`none` models the "container not found" error. -/
def FindContainer (projectName serviceName : String)
    (cs : List DockerContainer) : Option ContainerInfo :=
  (ListContainers projectName true cs).find?
    (fun info => goContains info.Name serviceName)

/-- States in which the engine's `ContainersPrune` removes a container. -/
def isStoppedState (st : String) : Bool :=
  st == "exited" || st == "created" || st == "dead"

/-- Engine semantics of `ContainersPrune`: the removed set is the stopped
containers matching the filters. -/
def containersPruneRemoved (flt : List (String × String))
    (cs : List DockerContainer) : List DockerContainer :=
  cs.filter (fun c => isStoppedState c.state && matchesLabelFilters c.labels flt)

/-- Model of `Client.PruneContainers`: it passes an empty `filters.Args{}`. -/
def PruneContainersRemoved (cs : List DockerContainer) : List DockerContainer :=
  containersPruneRemoved [] cs

/-- A named volume on the host. -/
structure DockerVolume where
  name : String
  labels : List (String × String)
  inUse : Bool
deriving DecidableEq

/-- Engine semantics of `VolumesPrune`: removes unused volumes matching
the filters. -/
def volumesPruneRemoved (flt : List (String × String))
    (vols : List DockerVolume) : List DockerVolume :=
  vols.filter (fun v => !v.inUse && matchesLabelFilters v.labels flt)

/-- Model of `Client.PruneVolumes`: it passes an empty `filters.Args{}`. -/
def PruneVolumesRemoved (vols : List DockerVolume) : List DockerVolume :=
  volumesPruneRemoved [] vols

/-- A network on the host. -/
structure DockerNetwork where
  name : String
  labels : List (String × String)
  inUse : Bool
deriving DecidableEq

/-- Engine semantics of `NetworksPrune`: removes unused networks matching
the filters. -/
def networksPruneRemoved (flt : List (String × String))
    (nets : List DockerNetwork) : List DockerNetwork :=
  nets.filter (fun n => !n.inUse && matchesLabelFilters n.labels flt)

/-- Model of `Client.PruneNetworks`: it passes an empty `filters.Args{}`. -/
def PruneNetworksRemoved (nets : List DockerNetwork) : List DockerNetwork :=
  networksPruneRemoved [] nets

/-! ## Compose facade argument construction (internal/docker, `compose.go`) -/

/-- The compose facade's configuration (the `Compose` struct fields set by
`NewCompose`; `verbose` only affects printing). -/
structure Compose where
  projectName : String
  configDir : String
  composeFile : String
  envFile : String
  verbose : Bool
deriving DecidableEq

/-- Base arguments shared by every compose invocation: definition file,
environment file, and the `-p` project scope when a project name is set. -/
def baseArgs (c : Compose) : List String :=
  ["compose", "-f", c.composeFile, "--env-file", c.envFile]
    ++ (if c.projectName == "" then [] else ["-p", c.projectName])

/-- Arguments built by `Compose.Up(ctx, detach, build)`: `-d` when
detached, `--build` when the second flag is set, always
`--remove-orphans`. -/
def upArgs (detach build : Bool) : List String :=
  (["up"] ++ (if detach then ["-d"] else [])
    ++ (if build then ["--build"] else [])) ++ ["--remove-orphans"]

/-! ## Filesystem provisioner (internal/stack)

Files are a path-indexed map of content, permission mode and owner; every
system call is recorded in an event trace so that frame properties
("nothing was invoked") are statable.  `filepath.Join` is modelled as
separator concatenation (its path cleaning is irrelevant to the claims),
and a file's mode is the plain mode bits (the setgid bit written as
`0o2775` etc.). -/

/-- System-call trace entries. -/
inductive FsEvent where
  | mkdirAll (path : String)
  | chmod (path : String) (mode : Nat)
  | chown (path : String) (uid gid : Int)
  | createTrunc (path : String) (mode : Nat)
  | createEmpty (path : String)
  | copyData (src dst : String)
  | statQ (path : String)
  | globQ (pattern : String)
  | readQ (path : String)
deriving DecidableEq

/-- Whether a trace entry mutates the filesystem (stat, glob and reads do
not). -/
def FsEvent.isMutation : FsEvent → Bool
  | .statQ _ => false
  | .globQ _ => false
  | .readQ _ => false
  | _ => true

/-- Content, permission mode and owner of one regular file. -/
structure FileData where
  content : String
  mode : Nat
  uid : Int
  gid : Int
deriving DecidableEq

/-- The tracked filesystem state: regular files by absolute path.
Directories carry no tracked state beyond the event trace. -/
structure FsState where
  files : List (String × FileData)
deriving DecidableEq

/-- Map read. -/
def FsState.lookup (fs : FsState) (p : String) : Option FileData :=
  fs.files.lookup p

/-- Map write (replacing any previous binding for the path). -/
def FsState.setFile (fs : FsState) (p : String) (fd : FileData) : FsState :=
  ⟨(p, fd) :: fs.files.filter (fun q => !(q.1 == p))⟩

/-- Failure injection for the fallible system calls, plus the identity new
files are created under. -/
structure Sys where
  procUid : Int
  procGid : Int
  mkdirFails : String → Bool
  openFails : String → Bool
  createFails : String → Bool
  chmodFails : String → Bool
  chownFails : String → Bool

/-- Model of `filepath.Join` (cleaning not modelled; no claim depends on
it). -/
def filepathJoin (a b : String) : String := a ++ "/" ++ b

/-- Last path element, as a character-list computation. -/
def baseNameL (p : List Char) : List Char :=
  (p.reverse.takeWhile (fun c => !(c == '/'))).reverse

/-- Model of `filepath.Base` restricted to the slash-containing paths the
provisioner builds. -/
def baseName (p : String) : String := (baseNameL p.data).asString

/-- Model of `filepath.Dir` restricted to the slash-containing paths the
provisioner builds. -/
def dirName (p : String) : String :=
  (((p.data.reverse.dropWhile (fun c => !(c == '/'))).drop 1).reverse).asString

/-- Model of `filepath.Ext`: the suffix from the final dot of the last
path element, empty when there is none. -/
def filepathExt (p : String) : String :=
  let r := p.data.reverse
  let pre := r.takeWhile (fun c => !(c == '.') && !(c == '/'))
  match r.drop pre.length with
  | '.' :: _ => ('.' :: pre.reverse).asString
  | _ => ""

/-- An `os.Chmod` whose failure is only warned about (the state changes
exactly when the call succeeds on a tracked file). -/
def chmodWarn (sys : Sys) (fs : FsState) (p : String) (m : Nat) :
    FsState × List FsEvent :=
  if sys.chmodFails p then (fs, [.chmod p m])
  else
    match fs.lookup p with
    | some fd => (fs.setFile p { fd with mode := m }, [.chmod p m])
    | none => (fs, [.chmod p m])

/-- An `os.Chown` whose failure is only warned about. -/
def chownWarn (sys : Sys) (fs : FsState) (p : String) (uid gid : Int) :
    FsState × List FsEvent :=
  if sys.chownFails p then (fs, [.chown p uid gid])
  else
    match fs.lookup p with
    | some fd => (fs.setFile p { fd with uid := uid, gid := gid },
        [.chown p uid gid])
    | none => (fs, [.chown p uid gid])

/-- The data-folder directory catalog (`DataDirectories`). -/
def DataDirectories : List String :=
  ["authentik/certs", "authentik/media", "authentik/templates", "bazarr",
   "chromium", "crowdsec/data", "ddns-updater", "filebot", "gluetun",
   "grafana", "headplane/data", "headscale/data", "heimdall",
   "homarr/configs", "homarr/data", "homarr/icons", "homepage", "huntarr",
   "jellyfin", "jellyseerr", "lidarr", "logs/unpackerr", "logs/traefik",
   "mylar", "plex", "portainer", "postgresql", "prometheus", "prowlarr",
   "qbittorrent", "radarr", "readarr", "sabnzbd", "sonarr", "tailscale",
   "tdarr/server", "tdarr/configs", "tdarr/logs", "tdarr-node",
   "traefik/letsencrypt", "traefik-certs-dumper", "unpackerr", "valkey",
   "whisparr"]

/-- The media-folder directory catalog (`MediaDirectories`). -/
def MediaDirectories : List String :=
  ["media/anime", "media/audio", "media/books", "media/comics",
   "media/movies", "media/music", "media/photos", "media/tv", "media/xxx",
   "usenet/anime", "usenet/audio", "usenet/books", "usenet/comics",
   "usenet/complete", "usenet/console", "usenet/incomplete",
   "usenet/movies", "usenet/music", "usenet/prowlarr", "usenet/software",
   "usenet/tv", "usenet/xxx", "torrents/anime", "torrents/audio",
   "torrents/books", "torrents/comics", "torrents/complete",
   "torrents/console", "torrents/incomplete", "torrents/movies",
   "torrents/music", "torrents/prowlarr", "torrents/software",
   "torrents/tv", "torrents/xxx", "watch", "filebot/input",
   "filebot/output"]

/-- Model of `createDir`: dry-run returns before any call; otherwise
`MkdirAll` (fatal on failure), then `Chown` and `Chmod 02775`, both
warning-only. -/
def createDir (path : String) (uid gid : Int) (verbose dryRun : Bool)
    (sys : Sys) (fs : FsState) : Except String (FsState × List FsEvent) :=
  if dryRun then .ok (fs, [])
  else if sys.mkdirFails path then .error "mkdir failed"
  else
    let c1 := chownWarn sys fs path uid gid
    let c2 := chmodWarn sys c1.1 path 0o2775
    .ok (c2.1, .mkdirAll path :: c1.2 ++ c2.2)

/-- One catalog loop of `CreateDirectories`, wrapping a failure with the
catalog kind and the offending relative path. -/
def createDirsAt (kind base : String) (dirs : List String) (uid gid : Int)
    (verbose dryRun : Bool) (sys : Sys) (fs : FsState) :
    Except String (FsState × List FsEvent) :=
  match dirs with
  | [] => .ok (fs, [])
  | d :: rest =>
    match createDir (filepathJoin base d) uid gid verbose dryRun sys fs with
    | .error e =>
      .error ("failed to create " ++ kind ++ " directory " ++ d ++ ": " ++ e)
    | .ok (fs1, ev1) =>
      match createDirsAt kind base rest uid gid verbose dryRun sys fs1 with
      | .error e => .error e
      | .ok (fs2, ev2) => .ok (fs2, ev1 ++ ev2)

/-- Model of `stack.CreateDirectories`: both catalogs, data first. -/
def CreateDirectories (dataFolder mediaFolder : String) (uid gid : Int)
    (verbose dryRun : Bool) (sys : Sys) (fs : FsState) :
    Except String (FsState × List FsEvent) :=
  match createDirsAt "data" dataFolder DataDirectories uid gid verbose dryRun
      sys fs with
  | .error e => .error e
  | .ok (fs1, ev1) =>
    match createDirsAt "media" mediaFolder MediaDirectories uid gid verbose
        dryRun sys fs1 with
    | .error e => .error e
    | .ok (fs2, ev2) => .ok (fs2, ev1 ++ ev2)

/-- One entry of the config-file manifest. -/
structure ConfigFile where
  Source : String
  Destination : String
  Permission : Nat
deriving DecidableEq

/-- The config-file manifest (`ConfigFiles`). -/
def ConfigFiles : List ConfigFile :=
  [⟨"headplane-config.yaml", "headplane/config.yaml", 0o664⟩,
   ⟨"headscale-config.yaml", "headscale/config.yaml", 0o664⟩,
   ⟨"traefik-static.yaml", "traefik/traefik.yaml", 0o664⟩,
   ⟨"traefik-dynamic.yaml", "traefik/dynamic.yaml", 0o664⟩,
   ⟨"traefik-internal.yaml", "traefik/internal.yaml", 0o664⟩,
   ⟨"crowdsec-acquis.yaml", "crowdsec/acquis.yaml", 0o664⟩]

/-- One entry of the special-files table. -/
structure SpecialFile where
  Path : String
  Permission : Nat
  Create : Bool
deriving DecidableEq

/-- The special-files table (`SpecialFiles`). -/
def SpecialFiles : List SpecialFile :=
  [⟨"traefik/letsencrypt/acme.json", 0o600, true⟩]

/-- Model of `copyFile`: open the source, ensure the destination
directory, open the destination with `O_WRONLY|O_CREATE|O_TRUNC` and the
given mode — so the mode argument takes effect only when the destination
is created, an existing destination being truncated but keeping its mode
and owner — then copy the bytes. -/
def copyFile (sys : Sys) (src dst : String) (perm : Nat) (fs : FsState) :
    Except String (FsState × List FsEvent) :=
  match fs.lookup src with
  | none => .error "failed to open source"
  | some sfd =>
    if sys.mkdirFails (dirName dst) then
      .error "failed to create destination directory"
    else if sys.openFails dst then .error "failed to create destination"
    else
      let fd0 : FileData :=
        match fs.lookup dst with
        | some old => { old with content := "" }
        | none => ⟨"", perm, sys.procUid, sys.procGid⟩
      let fs1 := fs.setFile dst { fd0 with content := sfd.content }
      .ok (fs1, [.readQ src, .mkdirAll (dirName dst),
        .createTrunc dst perm, .copyData src dst])

/-- The loop body of `CopyConfigFiles` for one manifest entry: dry-run
continues before any call; a missing source is a logged skip; a copy
failure is fatal (wrapped with the source name); the ownership change is
warning-only. -/
def stageEntry (configDir dataFolder : String) (uid gid : Int)
    (verbose dryRun : Bool) (sys : Sys) (cf : ConfigFile) (fs : FsState) :
    Except String (FsState × List FsEvent) :=
  let src := filepathJoin configDir cf.Source
  let dst := filepathJoin dataFolder cf.Destination
  if dryRun then .ok (fs, [])
  else if (fs.lookup src).isNone then .ok (fs, [.statQ src])
  else
    match copyFile sys src dst cf.Permission fs with
    | .error e => .error ("failed to copy " ++ cf.Source ++ ": " ++ e)
    | .ok (fs1, ev1) =>
      let c := chownWarn sys fs1 dst uid gid
      .ok (c.1, .statQ src :: ev1 ++ c.2)

/-- The manifest loop of `CopyConfigFiles`. -/
def stageEntries (configDir dataFolder : String) (uid gid : Int)
    (verbose dryRun : Bool) (sys : Sys) (cfs : List ConfigFile)
    (fs : FsState) : Except String (FsState × List FsEvent) :=
  match cfs with
  | [] => .ok (fs, [])
  | cf :: rest =>
    match stageEntry configDir dataFolder uid gid verbose dryRun sys cf fs with
    | .error e => .error e
    | .ok (fs1, ev1) =>
      match stageEntries configDir dataFolder uid gid verbose dryRun sys rest
          fs1 with
      | .error e => .error e
      | .ok (fs2, ev2) => .ok (fs2, ev1 ++ ev2)

/-- The special-files loop body of `CopyConfigFiles`: dry-run continues
before any call; a creatable file absent on disk is created empty (parent
directory ensured) with fatal failures; the subsequent permission change
is fatal on failure, the ownership change warning-only. -/
def stageSpecial (dataFolder : String) (uid gid : Int)
    (verbose dryRun : Bool) (sys : Sys) (sf : SpecialFile) (fs : FsState) :
    Except String (FsState × List FsEvent) :=
  let fullPath := filepathJoin dataFolder sf.Path
  if dryRun then .ok (fs, [])
  else
    let step1 : Except String (FsState × List FsEvent) :=
      if sf.Create then
        if (fs.lookup fullPath).isNone then
          if sys.mkdirFails (dirName fullPath) then
            .error ("failed to create directory for " ++ sf.Path)
          else if sys.createFails fullPath then
            .error ("failed to create " ++ sf.Path)
          else
            .ok (fs.setFile fullPath
                ⟨"", 0o666, sys.procUid, sys.procGid⟩,
              [.statQ fullPath, .mkdirAll (dirName fullPath),
                .createEmpty fullPath])
        else .ok (fs, [.statQ fullPath])
      else .ok (fs, [])
    match step1 with
    | .error e => .error e
    | .ok (fsA, evA) =>
      if sys.chmodFails fullPath then
        .error ("failed to set permissions on " ++ sf.Path)
      else
        match fsA.lookup fullPath with
        | none => .error ("failed to set permissions on " ++ sf.Path)
        | some fd =>
          let fsB := fsA.setFile fullPath { fd with mode := sf.Permission }
          let c := chownWarn sys fsB fullPath uid gid
          .ok (c.1, evA ++ .chmod fullPath sf.Permission :: c.2)

/-- The special-files loop of `CopyConfigFiles`. -/
def stageSpecials (dataFolder : String) (uid gid : Int)
    (verbose dryRun : Bool) (sys : Sys) (sfs : List SpecialFile)
    (fs : FsState) : Except String (FsState × List FsEvent) :=
  match sfs with
  | [] => .ok (fs, [])
  | sf :: rest =>
    match stageSpecial dataFolder uid gid verbose dryRun sys sf fs with
    | .error e => .error e
    | .ok (fs1, ev1) =>
      match stageSpecials dataFolder uid gid verbose dryRun sys rest fs1 with
      | .error e => .error e
      | .ok (fs2, ev2) => .ok (fs2, ev1 ++ ev2)

/-- Model of `stack.CopyConfigFiles`: the manifest loop, then the
special-files loop. -/
def CopyConfigFiles (configDir dataFolder : String) (uid gid : Int)
    (verbose dryRun : Bool) (sys : Sys) (fs : FsState) :
    Except String (FsState × List FsEvent) :=
  match stageEntries configDir dataFolder uid gid verbose dryRun sys
      ConfigFiles fs with
  | .error e => .error e
  | .ok (fs1, ev1) =>
    match stageSpecials dataFolder uid gid verbose dryRun sys SpecialFiles
        fs1 with
    | .error e => .error e
    | .ok (fs2, ev2) => .ok (fs2, ev1 ++ ev2)

/-- The glob patterns normalized by `SetConfigPermissions`. -/
def configPatterns : List String := ["*.yaml", "*.yml", ".env", "*.sh"]

/-- Matching of the patterns actually used (a `*` prefix is a suffix
match, otherwise a literal name). -/
def globMatch (pattern base : String) : Bool :=
  if pattern.startsWith "*" then base.endsWith (pattern.drop 1)
  else base == pattern

/-- Model of `filepath.Glob(filepath.Join(dir, pattern))` over the tracked
files: files directly inside `dir` whose base name matches. -/
def globDir (fs : FsState) (dir pattern : String) : List String :=
  (fs.files.map (fun q => q.1)).filter
    (fun p => dirName p == dir && globMatch pattern (baseName p))

/-- Permission chosen per match: script-like files get the executable
bits. -/
def permForMatch (m : String) : Nat :=
  if filepathExt m == ".sh" then 0o775 else 0o664

/-- The per-match loop of `SetConfigPermissions` (chmod then chown, both
warning-only; dry-run continues before any call). -/
def setPermsOnMatches (uid gid : Int) (dryRun : Bool) (sys : Sys)
    (ms : List String) (fs : FsState) : FsState × List FsEvent :=
  match ms with
  | [] => (fs, [])
  | m :: rest =>
    if dryRun then setPermsOnMatches uid gid dryRun sys rest fs
    else
      let c1 := chmodWarn sys fs m (permForMatch m)
      let c2 := chownWarn sys c1.1 m uid gid
      let r := setPermsOnMatches uid gid dryRun sys rest c2.1
      (r.1, c1.2 ++ c2.2 ++ r.2)

/-- The per-pattern loop of `SetConfigPermissions`. -/
def setPermsPatterns (configDir : String) (uid gid : Int) (dryRun : Bool)
    (sys : Sys) (pats : List String) (fs : FsState) :
    FsState × List FsEvent :=
  match pats with
  | [] => (fs, [])
  | p :: rest =>
    let ms := globDir fs configDir p
    let r1 := setPermsOnMatches uid gid dryRun sys ms fs
    let r2 := setPermsPatterns configDir uid gid dryRun sys rest r1.1
    (r2.1, .globQ (filepathJoin configDir p) :: r1.2 ++ r2.2)

/-- Model of `stack.SetConfigPermissions` (it never returns an error: all
its chmod/chown failures are warnings). -/
def SetConfigPermissions (configDir : String) (uid gid : Int)
    (verbose dryRun : Bool) (sys : Sys) (fs : FsState) :
    Except String (FsState × List FsEvent) :=
  .ok (setPermsPatterns configDir uid gid dryRun sys configPatterns fs)

/-! ## Deploy workflow (cmd, `deploy.go` / `runDeploy`)

The external container runtime is abstracted by an oracle giving the
outcome of each compose/client call; the workflow records every runtime
invocation in a trace. -/

/-- The typed settings record built by `config.Load` (the pass-through
variable map is omitted here; no claim reads it). -/
structure Config where
  ConfigDir : String
  MediaFolder : String
  DataFolder : String
  PUID : Int
  PGID : Int
  Variant : String
  ProjectName : String
  DockerSubnet : String
  DockerGateway : String
  LocalSubnet : String
  Timezone : String
  PostgresPassword : String
deriving DecidableEq

/-- The deploy command's flags, plus the global dry-run/verbose flags. -/
structure DeployFlags where
  pullFirst : Bool
  noDirs : Bool
  noFiles : Bool
  force : Bool
  prune : Bool
  dryRun : Bool
  verbose : Bool
deriving DecidableEq

/-- Outcomes of the external runtime calls made by `runDeploy`.  Stop and
prune failures are warning-only in the source and change no state this
model tracks, so only the outcomes that steer control flow or data appear. -/
structure DockerOracle where
  configOk : Bool
  pullOk : Bool
  clientOk : Bool
  listOk : Bool
  hostContainers : List DockerContainer
  upOk : Bool
  services : Except Unit (List String)
  isRunningRes : String → Except Unit Bool

/-- Runtime-invocation trace entries. -/
inductive DEvent where
  | composeConfig
  | composePull
  | clientList (all : Bool)
  | stopContainer (id : String)
  | pruneContainersQ
  | pruneVolumesQ
  | pruneNetworksQ
  | composeUp (args : List String)
  | configServicesQ
  | isRunningQ (service : String)
  | pruneImagesQ
deriving DecidableEq

/-- What a finished deploy run reports: the final filesystem, both traces,
and the verification tally (running count and expected count), `none`
when service enumeration failed or verification was not reached. -/
structure DeployResult where
  fs : FsState
  fsEvents : List FsEvent
  dockerEvents : List DEvent
  summary : Option (Nat × Nat)
deriving DecidableEq

/-- Steps 1-3 of `runDeploy`: directory provisioning (skippable),
permission normalization, config staging (skippable), each fatal error
wrapped with its phase message. -/
def deployFsPhases (flags : DeployFlags) (cfg : Config) (sys : Sys)
    (fs : FsState) : Except String (FsState × List FsEvent) :=
  match (if flags.noDirs then .ok (fs, [])
      else
        match CreateDirectories cfg.DataFolder cfg.MediaFolder cfg.PUID
            cfg.PGID flags.verbose flags.dryRun sys fs with
        | .error e => .error ("failed to create directories: " ++ e)
        | .ok r => .ok r : Except String (FsState × List FsEvent)) with
  | .error e => .error e
  | .ok (fs1, ev1) =>
    match SetConfigPermissions cfg.ConfigDir cfg.PUID cfg.PGID flags.verbose
        flags.dryRun sys fs1 with
    | .error e => .error ("failed to set permissions: " ++ e)
    | .ok (fs2, ev2) =>
      match (if flags.noFiles then .ok (fs2, [])
          else
            match CopyConfigFiles cfg.ConfigDir cfg.DataFolder cfg.PUID
                cfg.PGID flags.verbose flags.dryRun sys fs2 with
            | .error e => .error ("failed to copy config files: " ++ e)
            | .ok r => .ok r : Except String (FsState × List FsEvent)) with
      | .error e => .error e
      | .ok (fs3, ev3) => .ok (fs3, ev1 ++ ev2 ++ ev3)

/-- Steps 4-7 of `runDeploy`: validation, optional pull, client creation,
the label-scoped teardown (stop failures and the three prune calls are
warning-only), and bring-up.  Returns the runtime trace. -/
def deployPreVerify (flags : DeployFlags) (cfg : Config)
    (orc : DockerOracle) : Except String (List DEvent) :=
  if !orc.configOk then .error "compose configuration is invalid"
  else
    match (if flags.pullFirst then
        (if orc.pullOk then .ok [DEvent.composePull]
         else .error "failed to pull images")
      else .ok [] : Except String (List DEvent)) with
    | .error e => .error e
    | .ok evPull =>
      if !orc.clientOk then .error "failed to create Docker client"
      else
        let stops :=
          if orc.listOk then
            (ListContainers cfg.ProjectName false orc.hostContainers).map
              (fun info => DEvent.stopContainer info.ID)
          else []
        let evClient := DEvent.clientList false :: stops
          ++ [DEvent.pruneContainersQ, DEvent.pruneVolumesQ,
            DEvent.pruneNetworksQ]
        if !orc.upOk then .error "failed to start services"
        else
          .ok (DEvent.composeConfig :: evPull ++ evClient
            ++ [DEvent.composeUp (upArgs true flags.force)])

/-- Step 8 of `runDeploy`: service enumeration (failure is only warned
about) and the per-service running tally; it can never fail. -/
def verifyPhase (orc : DockerOracle) : List DEvent × Option (Nat × Nat) :=
  match orc.services with
  | .error _ => ([DEvent.configServicesQ], none)
  | .ok svcs =>
    let running := (svcs.filter (fun s =>
      match orc.isRunningRes s with
      | .ok true => true
      | _ => false)).length
    (DEvent.configServicesQ :: svcs.map DEvent.isRunningQ,
      some (running, svcs.length))

/-- Model of `runDeploy`: filesystem phases, the dry-run short-circuit
after config staging, then the runtime phases, verification and the
opt-out image prune. -/
def runDeploy (flags : DeployFlags) (cfg : Config) (sys : Sys)
    (orc : DockerOracle) (fs : FsState) : Except String DeployResult :=
  match deployFsPhases flags cfg sys fs with
  | .error e => .error e
  | .ok (fs1, fsEv) =>
    if flags.dryRun then .ok ⟨fs1, fsEv, [], none⟩
    else
      match deployPreVerify flags cfg orc with
      | .error e => .error e
      | .ok dEv =>
        let v := verifyPhase orc
        let post := if flags.prune then [DEvent.pruneImagesQ] else []
        .ok ⟨fs1, fsEv, dEv ++ v.1 ++ post, v.2⟩

/-- Trace entries belonging to the verification phase. -/
def isVerifyEvent : DEvent → Bool
  | .configServicesQ => true
  | .isRunningQ _ => true
  | _ => false

/-- A deploy report with the verification phase's recordings removed
(used to state that verification influences nothing else). -/
def scrubVerify (r : DeployResult) : DeployResult :=
  { r with
    dockerEvents := r.dockerEvents.filter (fun e => !isVerifyEvent e)
    summary := none }

/-! ## Concrete fixtures used in witnesses and counterexamples -/

/-- A running container of the configured project. -/
def sonarrRunning : DockerContainer :=
  ⟨"aaaabbbbccccdddd", ["/mediastack-sonarr-1"], "lscr.io/linuxserver/sonarr",
    "running", "Up 2 minutes", 100, [(composeProjectKey, "mediastack")],
    some "healthy", [⟨8989, 8989, "tcp"⟩]⟩

/-- A running container of a different compose project. -/
def otherRunning : DockerContainer :=
  ⟨"2222333344445555", ["/other-web-1"], "nginx", "running", "Up 1 hour",
    60, [(composeProjectKey, "other")], none, []⟩

/-- A stopped container of a different compose project. -/
def otherExited : DockerContainer :=
  ⟨"eeeeffff00001111", ["/other-db-1"], "postgres", "exited",
    "Exited (0) 5 minutes ago", 50, [(composeProjectKey, "other")], none, []⟩

/-- A host carrying containers of two different project labels. -/
def demoHost : List DockerContainer := [sonarrRunning, otherRunning, otherExited]

/-- A system-call environment in which every call succeeds. -/
def sysOk : Sys :=
  ⟨0, 0, fun _ => false, fun _ => false, fun _ => false, fun _ => false,
    fun _ => false⟩

/-- A system-call environment in which only ownership changes fail (the
common unprivileged situation). -/
def sysChownFails : Sys :=
  ⟨0, 0, fun _ => false, fun _ => false, fun _ => false, fun _ => false,
    fun _ => true⟩

/-- A settings fixture with the defaulted project name. -/
def cfgDemo : Config :=
  ⟨"/srv/config", "/srv/media", "/srv/data", 1000, 1000,
    "full-download-vpn", "mediastack", "172.28.0.0/16", "172.28.0.1",
    "192.168.0.0/16", "UTC", ""⟩

/-- The first manifest entry (used in concrete staging runs). -/
def headplaneEntry : ConfigFile :=
  ⟨"headplane-config.yaml", "headplane/config.yaml", 0o664⟩

/-- A filesystem holding the first manifest source and a pre-existing
destination whose mode 0600 differs from the entry's 0664. -/
def fsPreExisting : FsState :=
  ⟨[(filepathJoin "/srv/config" "headplane-config.yaml",
      ⟨"cfg-bytes", 0o664, 0, 0⟩),
    (filepathJoin "/srv/data" "headplane/config.yaml",
      ⟨"old-bytes", 0o600, 0, 0⟩)]⟩

/-- An oracle fixture in which every runtime call succeeds. -/
def orcDemo : DockerOracle :=
  ⟨true, true, true, true, demoHost, true, .ok ["sonarr", "radarr"],
    fun _ => .ok true⟩

/-- Deploy flags with the global dry-run flag set. -/
def flagsDry : DeployFlags := ⟨false, false, false, false, true, true, false⟩

/-- The destination file after one successful manifest-entry staging
(used only in theorem statements): bytes copied from the source; the
entry's permission only when the destination is newly created, a
pre-existing destination keeping its mode (and its owner when the
ownership change fails); owner set to the requested identity when the
ownership change succeeds. -/
def stagedDest (sys : Sys) (uid gid : Int) (cf : ConfigFile) (fs : FsState)
    (dst : String) (sfd : FileData) : FileData :=
  let base : FileData :=
    match fs.lookup dst with
    | some old => ⟨sfd.content, old.mode, old.uid, old.gid⟩
    | none => ⟨sfd.content, cf.Permission, sys.procUid, sys.procGid⟩
  if sys.chownFails dst then base else ⟨sfd.content, base.mode, uid, gid⟩

theorem lookup_mem {α β : Type} [BEq α] [LawfulBEq α] {l : List (α × β)}
    {a : α} {b : β} (h : List.lookup a l = some b) : (a, b) ∈ l := by
  induction l with
  | nil => simp [List.lookup] at h
  | cons p t ih =>
    rw [List.lookup] at h
    by_cases hab : a == p.1
    · simp [hab] at h
      have ha : a = p.1 := eq_of_beq hab
      subst h
      have : (a, p.2) = p := by
        rw [ha]
      rw [this]
      exact List.mem_cons_self p t
    · simp [hab] at h
      right
      exact ih h

theorem expandLoop_of_step_none {env : EnvMap} {procEnv : ProcEnv}
    {s : List Char} (h : expandStep env procEnv s = none) (fuel : Nat) :
    expandLoop env procEnv fuel s = some s := by
  unfold expandLoop
  rw [h]

theorem expandLoop_of_step_some {env : EnvMap} {procEnv : ProcEnv}
    {s r : List Char} (h : expandStep env procEnv s = some r) (fuel : Nat) :
    expandLoop env procEnv (fuel + 1) s = expandLoop env procEnv fuel r := by
  conv_lhs => unfold expandLoop
  rw [h]

/-- Shape of one loop iteration on a value whose first `${` opens at the end
of `pre` and whose first following `}` closes the body `vn`. -/
theorem expandStep_shape (env : EnvMap) (procEnv : ProcEnv)
    (pre vn post : List Char) (hpre : '$' ∉ pre) (hvn : '}' ∉ vn) :
    expandStep env procEnv (pre ++ '$' :: '{' :: (vn ++ '}' :: post)) =
      some (pre ++ resolveVar env procEnv vn ++ post) := by
  have hidx : goIndex (pre ++ '$' :: '{' :: (vn ++ '}' :: post)) ['$', '{']
      = some pre.length := goIndex_two_append pre (vn ++ '}' :: post) hpre
  have hdrop : (pre ++ '$' :: '{' :: (vn ++ '}' :: post)).drop pre.length
      = '$' :: '{' :: (vn ++ '}' :: post) := by
    rw [List.drop_left]
  have hnb : '}' ∉ ('$' :: '{' :: vn) := by
    intro hm
    rw [List.mem_cons, List.mem_cons] at hm
    rcases hm with h | h | h
    · exact absurd h (by decide)
    · exact absurd h (by decide)
    · exact hvn h
  have hclose : goIndex ('$' :: '{' :: (vn ++ '}' :: post)) ['}']
      = some (vn.length + 2) := by
    have := goIndex_one_append ('$' :: '{' :: vn) post hnb
    simpa using this
  have htake2 : (pre ++ '$' :: '{' :: (vn ++ '}' :: post)).drop (pre.length + 2)
      = vn ++ '}' :: post := by
    have hsplit : pre ++ '$' :: '{' :: (vn ++ '}' :: post)
        = (pre ++ ['$', '{']) ++ (vn ++ '}' :: post) := by
      simp
    rw [hsplit, List.drop_left']
    simp
  have htakevn : (vn ++ '}' :: post).take vn.length = vn := List.take_left vn _
  have htakepre : (pre ++ '$' :: '{' :: (vn ++ '}' :: post)).take pre.length
      = pre := List.take_left pre _
  have hdropend : (pre ++ '$' :: '{' :: (vn ++ '}' :: post)).drop
      (vn.length + 2 + pre.length + 1) = post := by
    have hsplit : pre ++ '$' :: '{' :: (vn ++ '}' :: post)
        = (pre ++ '$' :: '{' :: (vn ++ ['}'])) ++ post := by
      simp
    rw [hsplit, List.drop_left']
    simp
    omega
  have harith : vn.length + 2 + pre.length - (pre.length + 2) = vn.length := by
    omega
  simp only [expandStep, hidx, hdrop, hclose, htake2, harith, htakevn,
    htakepre, hdropend]

theorem expandStep_none_of_no_dollar {env : EnvMap} {procEnv : ProcEnv}
    {s : List Char} (h : '$' ∉ s) : expandStep env procEnv s = none := by
  unfold expandStep
  rw [goIndex_eq_none_of_not_mem h]

theorem take_append_shift (a s : List Char) (n : Nat) :
    (a ++ s).take (a.length + n) = a ++ s.take n := by
  rw [List.take_append_eq_append_take]
  simp

theorem drop_append_shift (a s : List Char) (n : Nat) :
    (a ++ s).drop (a.length + n) = s.drop n := by
  rw [List.drop_append_eq_append_drop]
  simp

theorem goIndex_append_none {c : Char} {cs a s : List Char} (ha : c ∉ a)
    (h : goIndex s (c :: cs) = none) : goIndex (a ++ s) (c :: cs) = none := by
  induction a with
  | nil => simpa using h
  | cons x xs ih =>
    have hcx : c ≠ x := fun hc => ha (hc ▸ List.mem_cons_self x xs)
    rw [List.cons_append, goIndex_cons_of_ne hcx,
      ih (fun hm => ha (List.mem_cons_of_mem x hm))]
    rfl

theorem goIndex_append_some {c : Char} {cs a s : List Char} {i : Nat}
    (ha : c ∉ a) (h : goIndex s (c :: cs) = some i) :
    goIndex (a ++ s) (c :: cs) = some (a.length + i) := by
  induction a with
  | nil => simpa using h
  | cons x xs ih =>
    have hcx : c ≠ x := fun hc => ha (hc ▸ List.mem_cons_self x xs)
    rw [List.cons_append, goIndex_cons_of_ne hcx,
      ih (fun hm => ha (List.mem_cons_of_mem x hm))]
    simp only [Option.map_some', Option.some.injEq, List.length_cons]
    omega

/-- Resolution of a plain `${VAR}` body: the already-parsed map first
(any value, even empty), then the process environment, then the empty
string. -/
theorem resolveVar_plain (env : EnvMap) (procEnv : ProcEnv)
    (name : List Char) (hname : ':' ∉ name) :
    resolveVar env procEnv name
      = (match List.lookup name env with
        | some v => v
        | none => (procEnv name).getD []) := by
  have hgx : goIndex name [':', '-'] = none :=
    goIndex_eq_none_of_not_mem hname
  cases hl : List.lookup name env with
  | some v => simp only [resolveVar, hgx, hl]
  | none =>
    cases hp : procEnv name with
    | some v => simp only [resolveVar, hgx, hl, hp, Option.getD]
    | none => simp only [resolveVar, hgx, hl, hp, Option.getD]

/-- Resolution of a `${VAR:-default}` body: a non-empty already-parsed
value wins, anything else falls back to the default literal (the process
environment is never consulted for this form). -/
theorem resolveVar_default (env : EnvMap) (procEnv : ProcEnv)
    (name dflt : List Char) (hname : ':' ∉ name) :
    resolveVar env procEnv (name ++ ':' :: '-' :: dflt)
      = (match List.lookup name env with
        | some v => if v.isEmpty then dflt else v
        | none => dflt) := by
  have hgx : goIndex (name ++ ':' :: '-' :: dflt) [':', '-']
      = some name.length := goIndex_two_append name dflt hname
  have hdropd : (name ++ ':' :: '-' :: dflt).drop (name.length + 2)
      = dflt := by
    have hsplit : name ++ ':' :: '-' :: dflt = (name ++ [':', '-']) ++ dflt := by
      simp
    rw [hsplit, List.drop_left']
    simp
  have htaken : (name ++ ':' :: '-' :: dflt).take name.length = name :=
    List.take_left name _
  cases hl : List.lookup name env with
  | some v => simp only [resolveVar, hgx, hdropd, htaken, hl]
  | none => simp only [resolveVar, hgx, hdropd, htaken, hl]

theorem resolveVar_no_dollar {env : EnvMap} {procEnv : ProcEnv}
    (henv : ∀ kv ∈ env, '$' ∉ kv.2)
    (hproc : ∀ n v, procEnv n = some v → '$' ∉ v) {vn : List Char}
    (hvn : '$' ∉ vn) : '$' ∉ resolveVar env procEnv vn := by
  cases hgx : goIndex vn [':', '-'] with
  | some idx =>
    cases hl : List.lookup (vn.take idx) env with
    | some v =>
      by_cases hv : v = []
      · simp only [resolveVar, hgx, hl, hv, List.isEmpty_nil, if_true]
        intro hm
        exact hvn (List.mem_of_mem_drop hm)
      · have : v.isEmpty = false := by
          simpa [List.isEmpty_iff] using hv
        simp only [resolveVar, hgx, hl, this, Bool.false_eq_true, if_false]
        exact henv (vn.take idx, v) (lookup_mem hl)
    | none =>
      simp only [resolveVar, hgx, hl]
      intro hm
      exact hvn (List.mem_of_mem_drop hm)
  | none =>
    cases hl : List.lookup vn env with
    | some v =>
      simp only [resolveVar, hgx, hl]
      exact henv (vn, v) (lookup_mem hl)
    | none =>
      cases hp : procEnv vn with
      | some v =>
        simp only [resolveVar, hgx, hl, hp, Option.getD]
        exact hproc vn v hp
      | none => simp [resolveVar, hgx, hl, hp]

/-- One loop iteration ignores a `$`-free prefix. -/
theorem expandStep_append_left {env : EnvMap} {procEnv : ProcEnv}
    (a s : List Char) (ha : '$' ∉ a) :
    expandStep env procEnv (a ++ s)
      = (expandStep env procEnv s).map (a ++ ·) := by
  cases h1 : goIndex s ['$', '{'] with
  | none =>
    have h1x : goIndex (a ++ s) ['$', '{'] = none := goIndex_append_none ha h1
    simp only [expandStep, h1, h1x, Option.map_none']
  | some start =>
    have h1x : goIndex (a ++ s) ['$', '{'] = some (a.length + start) :=
      goIndex_append_some ha h1
    have hd : (a ++ s).drop (a.length + start) = s.drop start :=
      drop_append_shift a s start
    cases h2 : goIndex (s.drop start) ['}'] with
    | none => simp only [expandStep, h1, h1x, hd, h2, Option.map_none']
    | some e0 =>
      have ht : (a ++ s).take (a.length + start) = a ++ s.take start :=
        take_append_shift a s start
      have hd2 : (a ++ s).drop (a.length + start + 2) = s.drop (start + 2) := by
        have hx := drop_append_shift a s (start + 2)
        rw [← hx]
        rfl
      have hd3 : (a ++ s).drop (e0 + (a.length + start) + 1)
          = s.drop (e0 + start + 1) := by
        have hx := drop_append_shift a s (e0 + start + 1)
        rw [← hx]
        congr 1
        omega
      have harith : e0 + (a.length + start) - (a.length + start + 2)
          = e0 + start - (start + 2) := by omega
      simp only [expandStep, h1, h1x, hd, h2, ht, hd2, hd3, harith,
        Option.map_some', Option.some.injEq]
      simp [List.append_assoc]

/-- The whole loop ignores a `$`-free prefix. -/
theorem expandLoop_append_left {env : EnvMap} {procEnv : ProcEnv}
    (a : List Char) (ha : '$' ∉ a) :
    ∀ (fuel : Nat) (s : List Char),
      expandLoop env procEnv fuel (a ++ s)
        = (expandLoop env procEnv fuel s).map (a ++ ·) := by
  intro fuel
  induction fuel with
  | zero =>
    intro s
    cases hstep : expandStep env procEnv s with
    | none =>
      have hx : expandStep env procEnv (a ++ s) = none := by
        rw [expandStep_append_left a s ha, hstep]
        rfl
      rw [expandLoop_of_step_none hx, expandLoop_of_step_none hstep]
      rfl
    | some r =>
      have hx : expandStep env procEnv (a ++ s) = some (a ++ r) := by
        rw [expandStep_append_left a s ha, hstep]
        rfl
      unfold expandLoop
      rw [hx, hstep]
      rfl
  | succ f ih =>
    intro s
    cases hstep : expandStep env procEnv s with
    | none =>
      have hx : expandStep env procEnv (a ++ s) = none := by
        rw [expandStep_append_left a s ha, hstep]
        rfl
      rw [expandLoop_of_step_none hx, expandLoop_of_step_none hstep]
      rfl
    | some r =>
      have hx : expandStep env procEnv (a ++ s) = some (a ++ r) := by
        rw [expandStep_append_left a s ha, hstep]
        rfl
      rw [expandLoop_of_step_some hx f, expandLoop_of_step_some hstep f]
      exact ih r

/-- The loop resolves a chunked value occurrence by occurrence, using one
iteration per occurrence. -/
theorem expandLoop_chunks {env : EnvMap} {procEnv : ProcEnv}
    (henv : ∀ kv ∈ env, '$' ∉ kv.2)
    (hproc : ∀ n v, procEnv n = some v → '$' ∉ v) :
    ∀ (chunks : List (List Char × List Char)) (tail : List Char),
      (∀ c ∈ chunks, '$' ∉ c.1 ∧ '}' ∉ c.2 ∧ '$' ∉ c.2) → '$' ∉ tail →
      expandLoop env procEnv chunks.length (chunksJoin chunks tail)
        = some (chunksResolved env procEnv chunks tail) := by
  intro chunks
  induction chunks with
  | nil =>
    intro tail _ htail
    rw [chunksJoin, chunksResolved,
      expandLoop_of_step_none (expandStep_none_of_no_dollar htail)]
  | cons c rest ih =>
    intro tail hcs htail
    obtain ⟨h1, h2, h3⟩ := hcs c (List.mem_cons_self c rest)
    have hstep := expandStep_shape env procEnv c.1 c.2 (chunksJoin rest tail)
      h1 h2
    have hjoin : chunksJoin (c :: rest) tail
        = c.1 ++ '$' :: '{' :: (c.2 ++ '}' :: chunksJoin rest tail) := rfl
    have hlen : (c :: rest).length = rest.length + 1 := rfl
    rw [hjoin, hlen, expandLoop_of_step_some hstep rest.length]
    have hval : '$' ∉ resolveVar env procEnv c.2 :=
      resolveVar_no_dollar henv hproc h3
    have hpv : '$' ∉ c.1 ++ resolveVar env procEnv c.2 := by
      intro hm
      rcases List.mem_append.mp hm with hm | hm
      · exact h1 hm
      · exact hval hm
    have hassoc : c.1 ++ resolveVar env procEnv c.2 ++ chunksJoin rest tail
        = (c.1 ++ resolveVar env procEnv c.2) ++ chunksJoin rest tail := by
      simp [List.append_assoc]
    rw [hassoc, expandLoop_append_left _ hpv,
      ih tail (fun d hd => hcs d (List.mem_cons_of_mem c hd)) htail]
    simp [chunksResolved, List.append_assoc]

/-- C7.  Expansion resolves every `${...}` occurrence of a value against
the already-parsed keys with the documented fallbacks: a value made of any
number of occurrences (each surrounded by `$`-free literal text, with
delimiter-free bodies) expands to the same value with each occurrence
replaced by its resolution; a plain `${VAR}` resolves to the parsed value
when the key is present, otherwise to an externally-set process
environment variable, otherwise to the empty string; a `${VAR:-default}`
resolves to a non-empty parsed value and otherwise falls back to the
default literal.  (The `$`-freeness side conditions keep looked-up values
from introducing further occurrences, under which the loop performs
exactly one resolution per occurrence.) -/
theorem expandVariables_resolution_fallback (env : EnvMap)
    (procEnv : ProcEnv)
    (henv : ∀ kv ∈ env, '$' ∉ kv.2)
    (hproc : ∀ n v, procEnv n = some v → '$' ∉ v) :
    (∀ (chunks : List (List Char × List Char)) (tail : List Char),
      (∀ c ∈ chunks, '$' ∉ c.1 ∧ '}' ∉ c.2 ∧ '$' ∉ c.2) → '$' ∉ tail →
      expandVariables chunks.length env procEnv (chunksJoin chunks tail)
        = some (chunksResolved env procEnv chunks tail))
    ∧ (∀ name, ':' ∉ name →
      resolveVar env procEnv name
        = (match List.lookup name env with
          | some v => v
          | none => (procEnv name).getD []))
    ∧ (∀ name dflt, ':' ∉ name →
      resolveVar env procEnv (name ++ ':' :: '-' :: dflt)
        = (match List.lookup name env with
          | some v => if v.isEmpty then dflt else v
          | none => dflt)) :=
  ⟨fun chunks tail hcs htail =>
    expandLoop_chunks henv hproc chunks tail hcs htail,
   fun name hname => resolveVar_plain env procEnv name hname,
   fun name dflt hname => resolveVar_default env procEnv name dflt hname⟩

/-- Witness for C7 on a two-occurrence value mixing both forms. -/
theorem expandVariables_resolution_fallback_witness :
    expandVariables 2 [("A".data, "x".data)] emptyProcEnv
        (chunksJoin [("u ".data, "A".data), (" and ".data, "B:-d".data)]
          "!".data)
      = some (chunksResolved [("A".data, "x".data)] emptyProcEnv
          [("u ".data, "A".data), (" and ".data, "B:-d".data)] "!".data)
    ∧ resolveVar [("A".data, "x".data)] emptyProcEnv "A".data
      = (match List.lookup "A".data [("A".data, "x".data)] with
        | some v => v
        | none => (emptyProcEnv "A".data).getD [])
    ∧ resolveVar [("A".data, "x".data)] emptyProcEnv
        ("B".data ++ ':' :: '-' :: "d".data)
      = (match List.lookup "B".data [("A".data, "x".data)] with
        | some v => if v.isEmpty then "d".data else v
        | none => "d".data) :=
  ⟨(expandVariables_resolution_fallback [("A".data, "x".data)] emptyProcEnv
      (by decide) (fun n v h => Option.noConfusion h)).1
      [("u ".data, "A".data), (" and ".data, "B:-d".data)] "!".data
      (by decide) (by decide),
   (expandVariables_resolution_fallback [("A".data, "x".data)] emptyProcEnv
      (by decide) (fun n v h => Option.noConfusion h)).2.1
      "A".data (by decide),
   (expandVariables_resolution_fallback [("A".data, "x".data)] emptyProcEnv
      (by decide) (fun n v h => Option.noConfusion h)).2.2
      "B".data "d".data (by decide)⟩

/-! ## Termination behaviour of the expansion loop -/

theorem expandStep_selfRef :
    expandStep selfRefEnv emptyProcEnv "${A}".data = some "${A}".data := by
  decide

theorem expandLoop_selfRef_none (fuel : Nat) :
    expandLoop selfRefEnv emptyProcEnv fuel "${A}".data = none := by
  induction fuel with
  | zero =>
    unfold expandLoop
    rw [expandStep_selfRef]
  | succ f ih =>
    unfold expandLoop
    rw [expandStep_selfRef]
    exact ih

/-- Counterexample to C9: on the value `${A}` with `A` already parsed as the
literal `${A}`, the expansion loop never exits — no amount of fuel makes
`expandVariables` return. -/
theorem expandVariables_nontermination_cex :
    ¬ ∃ fuel r,
      expandVariables fuel selfRefEnv emptyProcEnv "${A}".data = some r := by
  rintro ⟨fuel, r, h⟩
  rw [expandVariables, expandLoop_selfRef_none fuel] at h
  exact Option.noConfusion h

theorem resolveVar_count_le {env : EnvMap} {procEnv : ProcEnv}
    (henv : ∀ kv ∈ env, '{' ∉ kv.2)
    (hproc : ∀ n v, procEnv n = some v → '{' ∉ v) (vn : List Char) :
    (resolveVar env procEnv vn).count '{' ≤ vn.count '{' := by
  cases hgx : goIndex vn [':', '-'] with
  | some idx =>
    have hdk : (vn.drop (idx + 2)).count '{' ≤ vn.count '{' :=
      List.Sublist.count_le (List.drop_sublist (idx + 2) vn) '{'
    cases hl : List.lookup (vn.take idx) env with
    | some v =>
      by_cases hv : v = []
      · simp only [resolveVar, hgx, hl]
        simpa [hv] using hdk
      · have hz : v.count '{' = 0 :=
          List.count_eq_zero.mpr (henv (vn.take idx, v) (lookup_mem hl))
        simp only [resolveVar, hgx, hl]
        simp [hv, hz]
    | none =>
      simp only [resolveVar, hgx, hl]
      exact hdk
  | none =>
    cases hl : List.lookup vn env with
    | some v =>
      have hz : v.count '{' = 0 :=
        List.count_eq_zero.mpr (henv (vn, v) (lookup_mem hl))
      simp only [resolveVar, hgx, hl]
      simp [hz]
    | none =>
      cases hp : procEnv vn with
      | some v =>
        have hz : v.count '{' = 0 := List.count_eq_zero.mpr (hproc vn v hp)
        simp only [resolveVar, hgx, hl, hp]
        simp [hz]
      | none =>
        simp only [resolveVar, hgx, hl, hp]
        simp

/-- Every loop iteration strictly decreases the number of `{` characters,
provided no value reachable from the parsed map or the process environment
contains `{`. -/
theorem expandStep_braces_lt {env : EnvMap} {procEnv : ProcEnv}
    (henv : ∀ kv ∈ env, '{' ∉ kv.2)
    (hproc : ∀ n v, procEnv n = some v → '{' ∉ v)
    {s r : List Char} (h : expandStep env procEnv s = some r) :
    r.count '{' < s.count '{' := by
  unfold expandStep at h
  split at h
  · exact Option.noConfusion h
  · rename_i start h1
    split at h
    · exact Option.noConfusion h
    · rename_i e0 h2
      simp only [Option.some.injEq] at h
      subst h
      have hpre2 : ['$', '{'] <+: s.drop start :=
        List.isPrefixOf_iff_prefix.mp (goIndex_some_isPrefixOf h1)
      obtain ⟨u2, hu2⟩ := hpre2
      have hpc : ['}'] <+: (s.drop start).drop e0 :=
        List.isPrefixOf_iff_prefix.mp (goIndex_some_isPrefixOf h2)
      obtain ⟨w, hw⟩ := hpc
      have hwdrop : w = (s.drop start).drop (e0 + 1) := by
        have h3 : ((s.drop start).drop e0).drop 1 = (s.drop start).drop (e0 + 1) :=
          List.drop_drop 1 e0 (s.drop start)
        rw [← hw] at h3
        exact h3.symm ▸ rfl
      -- the closing brace cannot be one of the two opening-delimiter chars
      have he0 : 2 ≤ e0 := by
        by_contra hlt
        push_neg at hlt
        interval_cases e0
        · rw [List.drop_zero, ← hu2] at hw
          exact absurd (List.head_eq_of_cons_eq hw) (by decide)
        · rw [← hu2] at hw
          simp only [List.cons_append, List.drop_succ_cons,
            List.drop_zero] at hw
          exact absurd (List.head_eq_of_cons_eq hw) (by decide)
      -- name the pieces
      have hmid : (s.drop (start + 2)).take (e0 + start - (start + 2))
          = u2.take (e0 - 2) := by
        have hds : s.drop (start + 2) = u2 := by
          rw [← List.drop_drop 2 start s, ← hu2]
          rfl
        rw [hds]
        congr 1
        omega
      -- count of the scanned region
      have hcount_u : (s.drop start).count '{'
          = 1 + (u2.take (e0 - 2)).count '{'
            + ((s.drop start).drop (e0 + 1)).count '{' := by
        have hsplit : s.drop start
            = (s.drop start).take e0 ++ '}' :: (s.drop start).drop (e0 + 1) := by
          conv_lhs => rw [← List.take_append_drop e0 (s.drop start)]
          rw [← hw, hwdrop]
          rfl
        have htk : (s.drop start).take e0 = '$' :: '{' :: u2.take (e0 - 2) := by
          rw [← hu2]
          match e0, he0 with
          | e2 + 2, _ => rfl
        conv_lhs => rw [hsplit]
        rw [htk]
        simp [List.count_cons, List.count_append]
        omega
      have hval : ((resolveVar env procEnv (u2.take (e0 - 2))).count '{')
          ≤ (u2.take (e0 - 2)).count '{' :=
        resolveVar_count_le henv hproc _
      have hs : s.count '{' = (s.take start).count '{'
          + (s.drop start).count '{' := by
        conv_lhs => rw [← List.take_append_drop start s]
        rw [List.count_append]
      have hdropend : s.drop (e0 + start + 1) = (s.drop start).drop (e0 + 1) := by
        rw [List.drop_drop]
        congr 1
        omega
      rw [hmid, List.count_append, List.count_append, hdropend]
      omega

/-- Fuel equal to the number of `{` characters suffices when no substituted
value introduces a new one. -/
theorem expandLoop_terminates {env : EnvMap} {procEnv : ProcEnv}
    (henv : ∀ kv ∈ env, '{' ∉ kv.2)
    (hproc : ∀ n v, procEnv n = some v → '{' ∉ v) :
    ∀ (n : Nat) (s : List Char), s.count '{' ≤ n →
      ∃ r, expandLoop env procEnv n s = some r := by
  intro n
  induction n with
  | zero =>
    intro s hs
    match hstep : expandStep env procEnv s with
    | none =>
      exact ⟨s, expandLoop_of_step_none hstep 0⟩
    | some r =>
      have := expandStep_braces_lt henv hproc hstep
      omega
  | succ m ih =>
    intro s hs
    match hstep : expandStep env procEnv s with
    | none =>
      exact ⟨s, expandLoop_of_step_none hstep (m + 1)⟩
    | some r =>
      have hlt := expandStep_braces_lt henv hproc hstep
      obtain ⟨r2, hr2⟩ := ih r (by omega)
      exact ⟨r2, by rw [expandLoop_of_step_some hstep m]; exact hr2⟩

/-- Amended C9: expansion does terminate whenever no value obtainable from
the already-parsed map or from the process environment contains a `{`
character (in particular whenever looked-up values contain no further
`${` reference) — fuel equal to the count of `{` in the input suffices;
the unamended claim fails because a looked-up value containing its own
`${` reference makes the loop run forever (see the counterexample). -/
theorem expandVariables_terminates_of_brace_free
    (env : EnvMap) (procEnv : ProcEnv) (s : List Char)
    (henv : ∀ kv ∈ env, '{' ∉ kv.2)
    (hproc : ∀ n v, procEnv n = some v → '{' ∉ v) :
    ∃ r, expandVariables (s.count '{') env procEnv s = some r :=
  expandLoop_terminates henv hproc (s.count '{') s (Nat.le_refl _)

/-- Witness for the amended C9 at a concrete map and value. -/
theorem expandVariables_terminates_witness :
    ∃ r, expandVariables ("${A} and ${B:-z}".data.count '{')
      [("A".data, "x".data)] emptyProcEnv "${A} and ${B:-z}".data = some r :=
  expandVariables_terminates_of_brace_free [("A".data, "x".data)] emptyProcEnv
    "${A} and ${B:-z}".data (by decide) (fun n v h => Option.noConfusion h)

/-! ## Container enumeration and pruning (claims C1, C2, C8, C10) -/

theorem beq_false_of_ne {p : String} (h : p ≠ "") : (p == "") = false := by
  cases hb : p == ""
  · rfl
  · exact absurd (eq_of_beq hb) h

theorem mem_listTargets_label {p : String} {all : Bool}
    {cs : List DockerContainer} (hp : p ≠ "") {c : DockerContainer}
    (hc : c ∈ listTargets p all cs) :
    c ∈ cs ∧ c.labels.lookup composeProjectKey = some p := by
  unfold listTargets containerListQuery at hc
  obtain ⟨hmem, hpred⟩ := List.mem_filter.mp hc
  refine ⟨hmem, ?_⟩
  have hargs : projectFilterArgs p = [(composeProjectKey, p)] := by
    unfold projectFilterArgs
    rw [beq_false_of_ne hp]
    rfl
  rw [hargs] at hpred
  have hand := Bool.and_elim_right hpred
  unfold matchesLabelFilters at hand
  simp only [List.all_cons, List.all_nil, Bool.and_true] at hand
  exact eq_of_beq hand

/-- C1.  With a configured (non-empty) project label, the teardown stop
list — the running-container enumeration done before stopping — contains
only containers carrying that label; no container labelled with a
different project is enumerated; and a container located through the
service-name substring search (`FindContainer`) always comes from the
scoped enumeration, hence also carries the configured label and never a
different project's. -/
theorem teardown_scoped_by_project_label (p q : String)
    (cs : List DockerContainer) (hp : p ≠ "") (hq : q ≠ p) :
    (∀ c ∈ listTargets p false cs,
      c.labels.lookup composeProjectKey = some p)
    ∧ (∀ c ∈ listTargets p false cs,
      ¬ c.labels.lookup composeProjectKey = some q)
    ∧ (∀ svc info, FindContainer p svc cs = some info →
      ∃ c, c ∈ cs ∧ c.labels.lookup composeProjectKey = some p
        ∧ toContainerInfo c = info) := by
  refine ⟨?_, ?_, ?_⟩
  · intro c hc
    exact (mem_listTargets_label hp hc).2
  · intro c hc hbad
    have := (mem_listTargets_label hp hc).2
    rw [this] at hbad
    exact hq (Option.some.inj hbad).symm
  · intro svc info hfind
    unfold FindContainer at hfind
    have hmem : info ∈ ListContainers p true cs :=
      List.mem_of_find?_eq_some hfind
    unfold ListContainers at hmem
    obtain ⟨c, hc, hci⟩ := List.mem_map.mp hmem
    exact ⟨c, (mem_listTargets_label hp hc).1,
      (mem_listTargets_label hp hc).2, hci⟩

/-- Witness for C1 on a two-project host. -/
theorem teardown_scoped_by_project_label_witness :
    "mediastack" ≠ "" ∧ "other" ≠ "mediastack"
    ∧ ((∀ c ∈ listTargets "mediastack" false demoHost,
        c.labels.lookup composeProjectKey = some "mediastack")
      ∧ (∀ c ∈ listTargets "mediastack" false demoHost,
        ¬ c.labels.lookup composeProjectKey = some "other")
      ∧ (∀ svc info, FindContainer "mediastack" svc demoHost = some info →
        ∃ c, c ∈ demoHost
          ∧ c.labels.lookup composeProjectKey = some "mediastack"
          ∧ toContainerInfo c = info)) :=
  ⟨by decide, by decide,
    teardown_scoped_by_project_label "mediastack" "other" demoHost
      (by decide) (by decide)⟩

/-- Counterexample to C2: the client's container prune (issued with empty
filter arguments) removes a stopped container belonging to project
"other" although the loader-configured project name defaults to
"mediastack". -/
theorem prune_removes_other_project_cex :
    otherExited ∈ PruneContainersRemoved demoHost
    ∧ otherExited.labels.lookup composeProjectKey = some "other"
    ∧ loadProjectName [] = "mediastack".data := by
  refine ⟨by decide, by decide, by decide⟩

/-- Amended C2: the resource-reclamation calls are not scoped by the
project label — `PruneContainers`, `PruneVolumes` and `PruneNetworks` all
pass empty filter sets, so they remove every stopped container, every
unused volume and every unused network on the host, whatever project the
resource belongs to. -/
theorem prune_reclamation_unscoped (cs : List DockerContainer)
    (vols : List DockerVolume) (nets : List DockerNetwork) :
    PruneContainersRemoved cs = cs.filter (fun c => isStoppedState c.state)
    ∧ PruneVolumesRemoved vols = vols.filter (fun v => !v.inUse)
    ∧ PruneNetworksRemoved nets = nets.filter (fun n => !n.inUse) := by
  refine ⟨?_, ?_, ?_⟩
  · unfold PruneContainersRemoved containersPruneRemoved
    apply List.filter_congr
    intro c _
    simp [matchesLabelFilters]
  · unfold PruneVolumesRemoved volumesPruneRemoved
    apply List.filter_congr
    intro v _
    simp [matchesLabelFilters]
  · unfold PruneNetworksRemoved networksPruneRemoved
    apply List.filter_congr
    intro n _
    simp [matchesLabelFilters]

/-- C5 (documenting the defect): `runDeploy` passes its force flag as
`Compose.Up`'s second argument, but that argument adds `--build`; the
bring-up invocation with force set is exactly
`up -d --build --remove-orphans` — detached as claimed, but with no
`--force-recreate`, so unchanged containers are not recreated. -/
theorem up_with_force_has_no_force_recreate :
    upArgs true true = ["up", "-d", "--build", "--remove-orphans"]
    ∧ "--force-recreate" ∉ upArgs true true
    ∧ "-d" ∈ upArgs true true
    ∧ "--force-recreate" ∉ upArgs true false := by
  refine ⟨by decide, by decide, by decide, by decide⟩

/-- C8.  Every record produced by container enumeration has a non-empty
health field only when its state is `running`: the inspect-based health
query is guarded by the observed running state, and the field otherwise
keeps its empty zero value. -/
theorem health_only_when_running (p : String) (all : Bool)
    (cs : List DockerContainer) (info : ContainerInfo)
    (hmem : info ∈ ListContainers p all cs) (hh : info.Health ≠ "") :
    info.State = "running" := by
  unfold ListContainers at hmem
  obtain ⟨c, _, hci⟩ := List.mem_map.mp hmem
  subst hci
  by_cases hrun : c.state == "running"
  · simpa [toContainerInfo] using eq_of_beq hrun
  · exfalso
    apply hh
    simp [toContainerInfo, hrun]

/-- Witness for C8: a running healthy container, enumerated. -/
theorem health_only_when_running_witness :
    toContainerInfo sonarrRunning ∈ ListContainers "mediastack" false demoHost
    ∧ (toContainerInfo sonarrRunning).Health ≠ ""
    ∧ (toContainerInfo sonarrRunning).State = "running" :=
  ⟨List.mem_map_of_mem toContainerInfo (by decide), by decide,
    health_only_when_running "mediastack" false demoHost
      (toContainerInfo sonarrRunning)
      (List.mem_map_of_mem toContainerInfo (by decide)) (by decide)⟩

/-- C10.  With an empty project name the enumeration filter degenerates:
`ListContainers` queries with no label filter and targets every container
on the host, subject only to the include-stopped flag — and the
configuration loader rules the empty name out, since it defaults the
project name to `mediastack` and keeps any non-empty configured value. -/
theorem empty_project_unscoped_and_loader_default (all : Bool)
    (cs : List DockerContainer) (env : EnvMap) :
    listTargets "" all cs = cs.filter (fun c => all || c.state == "running")
    ∧ loadProjectName env ≠ []
    ∧ loadProjectName [] = "mediastack".data := by
  refine ⟨?_, ?_, by decide⟩
  · unfold listTargets containerListQuery projectFilterArgs
    have : ("" == "") = true := by decide
    rw [this]
    apply List.filter_congr
    intro c _
    simp [matchesLabelFilters]
  · unfold loadProjectName getEnvDefault
    cases hl : List.lookup "COMPOSE_PROJECT_NAME".data env with
    | none => decide
    | some v =>
      by_cases hv : v.isEmpty
      · simp [hv]
      · simp [hv]
        intro hc
        subst hc
        simp at hv

/-- Witness for C10 at a concrete host and parsed map. -/
theorem empty_project_unscoped_witness :
    listTargets "" true demoHost
        = demoHost.filter (fun c => true || c.state == "running")
    ∧ loadProjectName [("PUID".data, "1000".data)] ≠ []
    ∧ loadProjectName [] = "mediastack".data :=
  empty_project_unscoped_and_loader_default true demoHost
    [("PUID".data, "1000".data)]

/-! ## Filesystem-map lemmas -/

theorem lookup_filter_ne {l : List (String × FileData)} {p q : String}
    (h : q ≠ p) :
    List.lookup q (l.filter (fun kv => !(kv.1 == p))) = List.lookup q l := by
  induction l with
  | nil => rfl
  | cons kv t ih =>
    have hqk : (q == kv.1) = (q == kv.1) := rfl
    by_cases hkp : (kv.1 == p) = true
    · have hqk2 : (q == kv.1) = false := by
        cases hb : q == kv.1
        · rfl
        · exact absurd (eq_of_beq hb ▸ eq_of_beq hkp) h
      rw [List.filter_cons]
      simp only [hkp, Bool.not_true, Bool.false_eq_true, if_false]
      rw [ih, List.lookup, hqk2]
    · have hkp2 : (kv.1 == p) = false := by
        cases hb : kv.1 == p
        · rfl
        · exact absurd hb (by simpa using hkp)
      rw [List.filter_cons]
      simp only [hkp2, Bool.not_false, if_true]
      rw [List.lookup, List.lookup]
      cases hb : q == kv.1
      · exact ih
      · rfl

theorem lookup_setFile_self (fs : FsState) (p : String) (fd : FileData) :
    (fs.setFile p fd).lookup p = some fd := by
  unfold FsState.setFile FsState.lookup
  rw [List.lookup]
  simp

theorem lookup_setFile_ne (fs : FsState) {p q : String} (fd : FileData)
    (h : q ≠ p) : (fs.setFile p fd).lookup q = fs.lookup q := by
  unfold FsState.setFile FsState.lookup
  rw [List.lookup]
  have hq : (q == p) = false := by
    cases hb : q == p
    · rfl
    · exact absurd (eq_of_beq hb) h
  rw [hq]
  exact lookup_filter_ne h

theorem filter_ne_idem (l : List (String × FileData)) (p : String) :
    (l.filter (fun kv => !(kv.1 == p))).filter (fun kv => !(kv.1 == p))
      = l.filter (fun kv => !(kv.1 == p)) := by
  induction l with
  | nil => rfl
  | cons kv t ih =>
    by_cases hkp : (kv.1 == p) = true
    · simp only [List.filter_cons, hkp, Bool.not_true, Bool.false_eq_true,
        if_false]
      exact ih
    · have hkp2 : (kv.1 == p) = false := by
        cases hb : kv.1 == p
        · rfl
        · exact absurd hb (by simpa using hkp)
      simp only [List.filter_cons, hkp2, Bool.not_false, if_true]
      rw [ih]

theorem setFile_setFile (fs : FsState) (p : String) (a b : FileData) :
    (fs.setFile p a).setFile p b = fs.setFile p b := by
  unfold FsState.setFile
  congr 1
  rw [List.filter_cons]
  simp only [beq_self_eq_true, Bool.not_true, Bool.false_eq_true, if_false]
  rw [filter_ne_idem]

/-! ## Dry-run purity (claim C3) -/

theorem createDirsAt_dryRun (kind base : String) (dirs : List String)
    (uid gid : Int) (verbose : Bool) (sys : Sys) (fs : FsState) :
    createDirsAt kind base dirs uid gid verbose true sys fs = .ok (fs, []) := by
  induction dirs with
  | nil => rfl
  | cons d rest ih =>
    unfold createDirsAt createDir
    simp [ih]

theorem CreateDirectories_dryRun (dataFolder mediaFolder : String)
    (uid gid : Int) (verbose : Bool) (sys : Sys) (fs : FsState) :
    CreateDirectories dataFolder mediaFolder uid gid verbose true sys fs
      = .ok (fs, []) := by
  unfold CreateDirectories
  simp [createDirsAt_dryRun]

theorem stageEntries_dryRun (configDir dataFolder : String) (uid gid : Int)
    (verbose : Bool) (sys : Sys) (cfs : List ConfigFile) (fs : FsState) :
    stageEntries configDir dataFolder uid gid verbose true sys cfs fs
      = .ok (fs, []) := by
  induction cfs with
  | nil => rfl
  | cons cf rest ih =>
    unfold stageEntries stageEntry
    simp [ih]

theorem stageSpecials_dryRun (dataFolder : String) (uid gid : Int)
    (verbose : Bool) (sys : Sys) (sfs : List SpecialFile) (fs : FsState) :
    stageSpecials dataFolder uid gid verbose true sys sfs fs
      = .ok (fs, []) := by
  induction sfs with
  | nil => rfl
  | cons sf rest ih =>
    unfold stageSpecials stageSpecial
    simp [ih]

theorem CopyConfigFiles_dryRun (configDir dataFolder : String)
    (uid gid : Int) (verbose : Bool) (sys : Sys) (fs : FsState) :
    CopyConfigFiles configDir dataFolder uid gid verbose true sys fs
      = .ok (fs, []) := by
  unfold CopyConfigFiles
  simp [stageEntries_dryRun, stageSpecials_dryRun]

theorem setPermsOnMatches_dryRun (uid gid : Int) (sys : Sys)
    (ms : List String) (fs : FsState) :
    setPermsOnMatches uid gid true sys ms fs = (fs, []) := by
  induction ms with
  | nil => rfl
  | cons m rest ih =>
    unfold setPermsOnMatches
    simp [ih]

theorem setPermsPatterns_dryRun (configDir : String) (uid gid : Int)
    (sys : Sys) (pats : List String) (fs : FsState) :
    setPermsPatterns configDir uid gid true sys pats fs
      = (fs, pats.map (fun p => FsEvent.globQ (filepathJoin configDir p))) := by
  induction pats with
  | nil => rfl
  | cons p rest ih =>
    unfold setPermsPatterns
    simp [setPermsOnMatches_dryRun, ih]

theorem SetConfigPermissions_dryRun (configDir : String) (uid gid : Int)
    (verbose : Bool) (sys : Sys) (fs : FsState) :
    SetConfigPermissions configDir uid gid verbose true sys fs
      = .ok (fs, configPatterns.map
          (fun p => FsEvent.globQ (filepathJoin configDir p))) := by
  unfold SetConfigPermissions
  rw [setPermsPatterns_dryRun]

/-- C3.  With the dry-run flag enabled every provisioner operation leaves
the filesystem untouched and performs no mutating call (directory
creation and config staging issue no call at all; permission
normalization issues only read-only glob queries), and the deploy
workflow stops right after the config-staging phase with no runtime
invocation whatsoever. -/
theorem dryRun_pure (dataFolder mediaFolder configDir : String)
    (uid gid : Int) (verbose : Bool) (sys : Sys) (fs : FsState)
    (flags : DeployFlags) (cfg : Config) (orc : DockerOracle)
    (hdry : flags.dryRun = true) :
    CreateDirectories dataFolder mediaFolder uid gid verbose true sys fs
      = .ok (fs, [])
    ∧ CopyConfigFiles configDir dataFolder uid gid verbose true sys fs
      = .ok (fs, [])
    ∧ SetConfigPermissions configDir uid gid verbose true sys fs
      = .ok (fs, configPatterns.map
          (fun p => FsEvent.globQ (filepathJoin configDir p)))
    ∧ runDeploy flags cfg sys orc fs
      = .ok ⟨fs, configPatterns.map
          (fun p => FsEvent.globQ (filepathJoin cfg.ConfigDir p)), [], none⟩
    ∧ ∀ e ∈ configPatterns.map
        (fun p => FsEvent.globQ (filepathJoin cfg.ConfigDir p)),
      e.isMutation = false := by
  refine ⟨CreateDirectories_dryRun _ _ _ _ _ _ _,
    CopyConfigFiles_dryRun _ _ _ _ _ _ _,
    SetConfigPermissions_dryRun _ _ _ _ _ _, ?_, ?_⟩
  · unfold runDeploy deployFsPhases
    rw [hdry]
    cases hnd : flags.noDirs <;> cases hnf : flags.noFiles <;>
      simp [CreateDirectories_dryRun, CopyConfigFiles_dryRun,
        SetConfigPermissions_dryRun, setPermsPatterns_dryRun]
  · intro e he
    obtain ⟨p, _, hpe⟩ := List.mem_map.mp he
    rw [← hpe]
    rfl

/-- Witness for C3 at concrete flags, settings and filesystem. -/
theorem dryRun_pure_witness :
    flagsDry.dryRun = true
    ∧ runDeploy flagsDry cfgDemo sysOk orcDemo fsPreExisting
      = .ok ⟨fsPreExisting, configPatterns.map
          (fun p => FsEvent.globQ (filepathJoin cfgDemo.ConfigDir p)),
        [], none⟩ :=
  ⟨rfl, (dryRun_pure "/srv/data" "/srv/media" "/srv/config" 1000 1000 false
    sysOk fsPreExisting flagsDry cfgDemo orcDemo rfl).2.2.2.1⟩

/-! ## Post-start verification is advisory only (claim C4) -/

theorem scrub_verifyPhase (orc : DockerOracle) :
    (verifyPhase orc).1.filter (fun e => !isVerifyEvent e) = [] := by
  unfold verifyPhase
  cases orc.services with
  | error e => rfl
  | ok svcs =>
    simp only [List.filter_cons, isVerifyEvent, Bool.not_true,
      Bool.false_eq_true, if_false]
    rw [List.filter_map]
    have : ∀ s ∈ svcs, (Function.comp (fun e => !isVerifyEvent e)
        DEvent.isRunningQ) s = false := by
      intro s _
      rfl
    rw [List.filter_eq_nil_iff.mpr ?_]
    · rfl
    · intro s hs
      simp [Function.comp, isVerifyEvent]

/-- C4.  The post-start verification phase can never change the deploy
outcome: whatever service enumeration returns (including an error) and
whatever each per-service running check returns, the result of the
workflow — success or failure, final filesystem, and every
non-verification runtime invocation, image pruning included — is
identical; only the recorded tally differs. -/
theorem verification_never_fails_deploy (flags : DeployFlags) (cfg : Config)
    (sys : Sys) (orc : DockerOracle) (fs : FsState)
    (v1 v2 : Except Unit (List String))
    (w1 w2 : String → Except Unit Bool) :
    (runDeploy flags cfg sys
        { orc with services := v1, isRunningRes := w1 } fs).map scrubVerify
      = (runDeploy flags cfg sys
        { orc with services := v2, isRunningRes := w2 } fs).map scrubVerify := by
  unfold runDeploy
  cases hfs : deployFsPhases flags cfg sys fs with
  | error e => rfl
  | ok r =>
    obtain ⟨fs1, fsEv⟩ := r
    by_cases hdry : flags.dryRun
    · simp [hdry]
    · simp only [hdry, if_false, Bool.false_eq_true]
      have hpv : deployPreVerify flags cfg
            { orc with services := v1, isRunningRes := w1 }
          = deployPreVerify flags cfg
            { orc with services := v2, isRunningRes := w2 } := by
        rfl
      rw [hpv]
      cases hdev : deployPreVerify flags cfg
          { orc with services := v2, isRunningRes := w2 } with
      | error e => rfl
      | ok dEv =>
        simp only [Except.map, scrubVerify]
        have hsplit : ∀ (o : DockerOracle) (post : List DEvent),
            (dEv ++ (verifyPhase o).1 ++ post).filter
                (fun e => !isVerifyEvent e)
              = dEv.filter (fun e => !isVerifyEvent e)
                ++ post.filter (fun e => !isVerifyEvent e) := by
          intro o post
          rw [List.filter_append, List.filter_append, scrub_verifyPhase]
          simp
        rw [hsplit, hsplit]

/-! ## Config staging and destination permissions (claim C6) -/

/-- Counterexample to C6: running config staging over a pre-existing
destination of mode 0600 copies the bytes but leaves the mode at 0600 —
the entry's 0664 is never applied to an existing destination, because the
mode is only the `O_CREATE` argument of the destination open and no
chmod follows the copy. -/
theorem staging_keeps_preexisting_mode_cex :
    (CopyConfigFiles "/srv/config" "/srv/data" 1000 1000 false false sysOk
        fsPreExisting).map
        (fun r => (r.1.lookup
            (filepathJoin "/srv/data" "headplane/config.yaml")).map
          (fun fd => (fd.content, fd.mode)))
      = .ok (some ("cfg-bytes", 0o600))
    ∧ headplaneEntry ∈ ConfigFiles
    ∧ headplaneEntry.Permission = 0o664
    ∧ (0o600 : Nat) ≠ 0o664 := by
  refine ⟨rfl, by decide, by decide, by decide⟩

/-- Amended C6.  For a manifest entry whose source exists (and whose copy
succeeds), staging copies the source bytes to the destination and applies
the entry's mode only at destination creation: a pre-existing destination
keeps its previous mode; an ownership-change failure is non-fatal — the
entry still succeeds, leaving the copied bytes in place — while open and
copy failures are the only fatal outcomes for the entry (the fatal
permission-change path exists only for the special files). -/
theorem stageEntry_copy_semantics (configDir dataFolder : String)
    (uid gid : Int) (verbose : Bool) (sys : Sys) (cf : ConfigFile)
    (fs : FsState) (sfd : FileData)
    (hsrc : fs.lookup (filepathJoin configDir cf.Source) = some sfd)
    (hmk : sys.mkdirFails (dirName (filepathJoin dataFolder cf.Destination))
      = false)
    (hopen : sys.openFails (filepathJoin dataFolder cf.Destination)
      = false) :
    stageEntry configDir dataFolder uid gid verbose false sys cf fs
      = .ok (fs.setFile (filepathJoin dataFolder cf.Destination)
          (stagedDest sys uid gid cf fs
            (filepathJoin dataFolder cf.Destination) sfd),
        [.statQ (filepathJoin configDir cf.Source),
         .readQ (filepathJoin configDir cf.Source),
         .mkdirAll (dirName (filepathJoin dataFolder cf.Destination)),
         .createTrunc (filepathJoin dataFolder cf.Destination) cf.Permission,
         .copyData (filepathJoin configDir cf.Source)
           (filepathJoin dataFolder cf.Destination),
         .chown (filepathJoin dataFolder cf.Destination) uid gid])
    ∧ (fs.setFile (filepathJoin dataFolder cf.Destination)
        (stagedDest sys uid gid cf fs
          (filepathJoin dataFolder cf.Destination) sfd)).lookup
        (filepathJoin dataFolder cf.Destination)
      = some (stagedDest sys uid gid cf fs
          (filepathJoin dataFolder cf.Destination) sfd)
    ∧ ∀ q, q ≠ filepathJoin dataFolder cf.Destination →
      (fs.setFile (filepathJoin dataFolder cf.Destination)
        (stagedDest sys uid gid cf fs
          (filepathJoin dataFolder cf.Destination) sfd)).lookup q
        = fs.lookup q := by
  refine ⟨?_, lookup_setFile_self _ _ _, fun q hq => lookup_setFile_ne _ _ hq⟩
  unfold stageEntry copyFile chownWarn stagedDest
  cases hch : sys.chownFails (filepathJoin dataFolder cf.Destination) with
  | true =>
    cases hdst : fs.lookup (filepathJoin dataFolder cf.Destination) with
    | some old =>
      simp only [hsrc, hmk, hopen, hdst, hch, Option.isNone_some,
        Bool.false_eq_true, if_false, if_true]
      rfl
    | none =>
      simp only [hsrc, hmk, hopen, hdst, hch, Option.isNone_some,
        Bool.false_eq_true, if_false, if_true]
      rfl
  | false =>
    cases hdst : fs.lookup (filepathJoin dataFolder cf.Destination) with
    | some old =>
      simp only [hsrc, hmk, hopen, hdst, hch, Option.isNone_some,
        Bool.false_eq_true, if_false, if_true, lookup_setFile_self,
        setFile_setFile]
      rfl
    | none =>
      simp only [hsrc, hmk, hopen, hdst, hch, Option.isNone_some,
        Bool.false_eq_true, if_false, if_true, lookup_setFile_self,
        setFile_setFile]
      rfl

/-- Witness for the amended C6 on the pre-existing-destination fixture. -/
theorem stageEntry_copy_semantics_witness :
    stageEntry "/srv/config" "/srv/data" 1000 1000 false false sysOk
        headplaneEntry fsPreExisting
      = .ok (fsPreExisting.setFile
          (filepathJoin "/srv/data" headplaneEntry.Destination)
          (stagedDest sysOk 1000 1000 headplaneEntry fsPreExisting
            (filepathJoin "/srv/data" headplaneEntry.Destination)
            ⟨"cfg-bytes", 0o664, 0, 0⟩),
        [.statQ (filepathJoin "/srv/config" headplaneEntry.Source),
         .readQ (filepathJoin "/srv/config" headplaneEntry.Source),
         .mkdirAll (dirName
           (filepathJoin "/srv/data" headplaneEntry.Destination)),
         .createTrunc (filepathJoin "/srv/data" headplaneEntry.Destination)
           headplaneEntry.Permission,
         .copyData (filepathJoin "/srv/config" headplaneEntry.Source)
           (filepathJoin "/srv/data" headplaneEntry.Destination),
         .chown (filepathJoin "/srv/data" headplaneEntry.Destination)
           1000 1000])
    ∧ (fsPreExisting.setFile
        (filepathJoin "/srv/data" headplaneEntry.Destination)
        (stagedDest sysOk 1000 1000 headplaneEntry fsPreExisting
          (filepathJoin "/srv/data" headplaneEntry.Destination)
          ⟨"cfg-bytes", 0o664, 0, 0⟩)).lookup
        (filepathJoin "/srv/data" headplaneEntry.Destination)
      = some (stagedDest sysOk 1000 1000 headplaneEntry fsPreExisting
          (filepathJoin "/srv/data" headplaneEntry.Destination)
          ⟨"cfg-bytes", 0o664, 0, 0⟩)
    ∧ ∀ q, q ≠ filepathJoin "/srv/data" headplaneEntry.Destination →
      (fsPreExisting.setFile
        (filepathJoin "/srv/data" headplaneEntry.Destination)
        (stagedDest sysOk 1000 1000 headplaneEntry fsPreExisting
          (filepathJoin "/srv/data" headplaneEntry.Destination)
          ⟨"cfg-bytes", 0o664, 0, 0⟩)).lookup q
        = fsPreExisting.lookup q :=
  stageEntry_copy_semantics "/srv/config" "/srv/data" 1000 1000 false sysOk
    headplaneEntry fsPreExisting ⟨"cfg-bytes", 0o664, 0, 0⟩
    (by decide) rfl rfl

end Mediastack
